import Mathlib

/-!
Verification development for the GP motion-fit objective of
src/jaz/gp_motion_fit.cpp (class GpMotionFit).

The C++ class is embedded shallowly: the immutable state built by the
constructor (particle count, frame count, retained dimension count, the
spectral basis, eigenvalues, per-frame offsets, and the externally supplied
interpolation capability applied to the correlation images) is a structure,
and each member function is a Lean function translated loop-by-loop from the
source, with arrays of doubles rendered as functions from indices into a
linear ordered field and in-place array writes rendered as pointwise
function updates.  Loops become folds over the same index ranges the C++
iterates over, in the same order.

The interpolation capability (Interpolation::cubicXY and cubicXYgrad applied
to correlation[p][f]) is abstracted as the two fields corrVal and corrGrad of
the state, exactly as the specification treats it: an external capability
whose gradient mode is regarded as the true derivative of its value mode.
-/

/-- Immutable state of a constructed GpMotionFit object: counts, kernel and
basis data computed by the constructor, and the external interpolation
capability specialised to the stored correlation images.
corrVal p fr q models Interpolation::cubicXY(correlation[p][fr], q.x, q.y)
and corrGrad p fr q models Interpolation::cubicXYgrad(correlation[p][fr], q.x, q.y). -/
structure GpMotionFit (K : Type) where
  pc : ℕ
  fc : ℕ
  dc : ℕ
  sig_acc_px : K
  basis : ℕ → ℕ → K
  eigenVals : ℕ → K
  perFrameOffsets : ℕ → K × K
  corrVal : ℕ → ℕ → K × K → K
  corrGrad : ℕ → ℕ → K × K → K × K

namespace GpMotionFit

variable {K : Type} [LinearOrderedField K]

/-- Index of the x component of the GP coefficient of frame transition fr and
mode d inside the flat parameter vector: 2*(pc + dc*f + d) in the source. -/
def slot (st : GpMotionFit K) (fr d : ℕ) : ℕ :=
  2 * (st.pc + st.dc * fr + d)

/-- Expected length of the flat parameter vector x and of gradDest:
2*pc + 2*dc*(fc-1). -/
def paramLength (st : GpMotionFit K) : ℕ :=
  2 * st.pc + 2 * st.dc * (st.fc - 1)

/-- Velocity of particle p at frame transition fr: the inner d-loop of
paramsToPos, accumulating coefficient times basis loading componentwise. -/
def velocity (st : GpMotionFit K) (x : ℕ → K) (p fr : ℕ) : K × K :=
  (List.range st.dc).foldl
    (fun v d =>
      (v.1 + x (slot st fr d) * st.basis p d,
       v.2 + x (slot st fr d + 1) * st.basis p d))
    ((0 : K), (0 : K))

/-- One iteration of the frame loop of paramsToPos: store the running
position pp into the grid at frame fr, then, if fr < fc-1, advance pp by the
velocity of transition fr. -/
def posStep (st : GpMotionFit K) (x : ℕ → K) (p : ℕ)
    (s : (ℕ → K × K) × (K × K)) (fr : ℕ) : (ℕ → K × K) × (K × K) :=
  (Function.update s.1 fr s.2,
   if fr < st.fc - 1 then
     (s.2.1 + (velocity st x p fr).1, s.2.2 + (velocity st x p fr).2)
   else s.2)

/-- The frame loop of paramsToPos for particle p, run over the first n frames,
starting from the frame-0 position read from the two leading slots of x. -/
def posAux (st : GpMotionFit K) (x : ℕ → K) (p n : ℕ) :
    (ℕ → K × K) × (K × K) :=
  (List.range n).foldl (posStep st x p)
    (fun _ => ((0 : K), (0 : K)), (x (2 * p), x (2 * p + 1)))

/-- GpMotionFit::paramsToPos restricted to particle p: the grid row filled by
the frame loop. -/
def paramsToPos (st : GpMotionFit K) (x : ℕ → K) (p : ℕ) : ℕ → K × K :=
  (posAux st x p st.fc).1

/-- Position of particle p at frame fr produced by expanding x. -/
def posAt (st : GpMotionFit K) (x : ℕ → K) (p fr : ℕ) : K × K :=
  paramsToPos st x p fr

/-- Reference recurrence for the running position pp of the frame loop. -/
def ppIter (st : GpMotionFit K) (x : ℕ → K) (p : ℕ) : ℕ → K × K
  | 0 => (x (2 * p), x (2 * p + 1))
  | fr + 1 =>
      ((ppIter st x p fr).1 + (velocity st x p fr).1,
       (ppIter st x p fr).2 + (velocity st x p fr).2)

/-- Point at which the correlation image of particle p and frame fr is
sampled: expanded position plus the per-frame offset. -/
def samplePt (st : GpMotionFit K) (x : ℕ → K) (p fr : ℕ) : K × K :=
  ((posAt st x p fr).1 + (st.perFrameOffsets fr).1,
   (posAt st x p fr).2 + (st.perFrameOffsets fr).2)

/-- GpMotionFit::f — the scalar energy: per-particle accumulation of the
negated sampled correlation values, then the GP-coefficient regularization
loop, then (only when sig_acc_px > 0) the acceleration penalty loop. -/
def f (st : GpMotionFit K) (x : ℕ → K) : K :=
  let e1 :=
    (List.range st.pc).foldl
      (fun e_tot p =>
        e_tot +
          (List.range st.fc).foldl
            (fun e fr => e - st.corrVal p fr (samplePt st x p fr)) 0)
      0
  let e2 :=
    (List.range (st.fc - 1)).foldl
      (fun e_tot fr =>
        (List.range st.dc).foldl
          (fun e d =>
            e + (x (slot st fr d) * x (slot st fr d) +
                 x (slot st fr d + 1) * x (slot st fr d + 1)))
          e_tot)
      e1
  if 0 < st.sig_acc_px then
    (List.range (st.fc - 2)).foldl
      (fun e_tot fr =>
        (List.range st.dc).foldl
          (fun e d =>
            e + st.eigenVals d *
              ((x (slot st (fr + 1) d) - x (slot st fr d)) *
               (x (slot st (fr + 1) d) - x (slot st fr d)) +
               (x (slot st (fr + 1) d + 1) - x (slot st fr d + 1)) *
               (x (slot st (fr + 1) d + 1) - x (slot st fr d + 1))) /
              (st.sig_acc_px * st.sig_acc_px))
          e_tot)
      e2
  else e2

/-- Per-pixel correlation gradient ccg_pf[p][fr] of GpMotionFit::grad:
cubicXYgrad sampled at the expanded position plus offset. -/
def ccg (st : GpMotionFit K) (x : ℕ → K) (p fr : ℕ) : K × K :=
  st.corrGrad p fr (samplePt st x p fr)

/-- In-place array increment: gradDest[i] += v. -/
def addAt (g : ℕ → K) (i : ℕ) (v : K) : ℕ → K :=
  Function.update g i (g i + v)

/-- In-place array decrement: gradDest[i] -= v. -/
def subAt (g : ℕ → K) (i : ℕ) (v : K) : ℕ → K :=
  Function.update g i (g i - v)

/-- The zeroing loop of GpMotionFit::grad: gradDest[i] = 0 for every
i < gradDest.size(). -/
def gradZero (g0 : ℕ → K) (n : ℕ) : ℕ → K :=
  (List.range n).foldl (fun g i => Function.update g i 0) g0

/-- Frame-0 position loop of GpMotionFit::grad: slots 2*p and 2*p+1
accumulate the per-frame correlation gradients. -/
def gradFrame0 (st : GpMotionFit K) (x : ℕ → K) (g : ℕ → K) : ℕ → K :=
  (List.range st.pc).foldl
    (fun g p =>
      (List.range st.fc).foldl
        (fun g fr =>
          addAt (addAt g (2 * p) (ccg st x p fr).1) (2 * p + 1)
            (ccg st x p fr).2)
        g)
    g

/-- Reverse frame loop of GpMotionFit::grad for one mode d and particle p:
a running pair g accumulates basis(p,d) times the correlation gradient of
the visited frame, and each visited transition slot is decremented by the
running pair, iterating frames fc-2 down to 0. -/
def gradCoeffInner (st : GpMotionFit K) (x : ℕ → K) (d p : ℕ)
    (g : ℕ → K) : ℕ → K :=
  (((List.range (st.fc - 1)).reverse).foldl
      (fun (s : (K × K) × (ℕ → K)) fr =>
        ((s.1.1 + st.basis p d * (ccg st x p fr).1,
          s.1.2 + st.basis p d * (ccg st x p fr).2),
         subAt
           (subAt s.2 (slot st fr d)
             (s.1.1 + st.basis p d * (ccg st x p fr).1))
           (slot st fr d + 1)
           (s.1.2 + st.basis p d * (ccg st x p fr).2)))
      (((0 : K), (0 : K)), g)).2

/-- GP coefficient correlation loop of GpMotionFit::grad: the reverse frame
loop run for every mode d < dc and particle p < pc. -/
def gradCoeff (st : GpMotionFit K) (x : ℕ → K) (g : ℕ → K) : ℕ → K :=
  (List.range st.dc).foldl
    (fun g d =>
      (List.range st.pc).foldl (fun g p => gradCoeffInner st x d p g) g)
    g

/-- Regularization loop of GpMotionFit::grad, transcribed with the loop
bounds of the source: fr < fc-1 and d < pc. -/
def gradReg (st : GpMotionFit K) (x : ℕ → K) (g : ℕ → K) : ℕ → K :=
  (List.range (st.fc - 1)).foldl
    (fun g fr =>
      (List.range st.pc).foldl
        (fun g d =>
          addAt (addAt g (slot st fr d) (2 * x (slot st fr d)))
            (slot st fr d + 1) (2 * x (slot st fr d + 1)))
        g)
    g

/-- Acceleration penalty loop of GpMotionFit::grad, active only when
sig_acc_px > 0. -/
def gradAcc (st : GpMotionFit K) (x : ℕ → K) (g : ℕ → K) : ℕ → K :=
  if 0 < st.sig_acc_px then
    (List.range (st.fc - 2)).foldl
      (fun g fr =>
        (List.range st.dc).foldl
          (fun g d =>
            addAt
              (addAt
                (subAt
                  (subAt g (slot st fr d)
                    (2 * st.eigenVals d *
                      (x (slot st (fr + 1) d) - x (slot st fr d)) /
                      (st.sig_acc_px * st.sig_acc_px)))
                  (slot st fr d + 1)
                  (2 * st.eigenVals d *
                    (x (slot st (fr + 1) d + 1) - x (slot st fr d + 1)) /
                    (st.sig_acc_px * st.sig_acc_px)))
                (slot st (fr + 1) d)
                (2 * st.eigenVals d *
                  (x (slot st (fr + 1) d) - x (slot st fr d)) /
                  (st.sig_acc_px * st.sig_acc_px)))
              (slot st (fr + 1) d + 1)
              (2 * st.eigenVals d *
                (x (slot st (fr + 1) d + 1) - x (slot st fr d + 1)) /
                (st.sig_acc_px * st.sig_acc_px)))
          g)
      g
  else g

/-- GpMotionFit::grad: zero gradDest (of size n), then run the four
accumulation loops in source order. -/
def grad (st : GpMotionFit K) (x : ℕ → K) (g0 : ℕ → K) (n : ℕ) : ℕ → K :=
  gradAcc st x (gradReg st x (gradCoeff st x (gradFrame0 st x (gradZero g0 n))))

/-- The p-loop of posToParams projecting a velocity difference of the grid
onto the basis column of mode d at transition fr: the pair c. -/
def cVec (st : GpMotionFit K) (grid : ℕ → ℕ → K × K) (fr d : ℕ) : K × K :=
  (List.range st.pc).foldl
    (fun c p =>
      (c.1 + ((grid p (fr + 1)).1 - (grid p fr).1) * st.basis p d,
       c.2 + ((grid p (fr + 1)).2 - (grid p fr).2) * st.basis p d))
    ((0 : K), (0 : K))

/-- The frame-0 copy step of posToParams for one particle p. -/
def posPartStep (grid : ℕ → ℕ → K × K) (x : ℕ → K) (p : ℕ) : ℕ → K :=
  Function.update (Function.update x (2 * p) (grid p 0).1) (2 * p + 1)
    (grid p 0).2

/-- The frame-0 copy loop of posToParams. -/
def posPartFold (st : GpMotionFit K) (grid : ℕ → ℕ → K × K)
    (x0 : ℕ → K) : ℕ → K :=
  (List.range st.pc).foldl (posPartStep grid) x0

/-- The d-loop body of posToParams: write both components of the projected
coefficient, divided by the eigenvalue, into the slots of (fr, d). -/
def coeffStepD (st : GpMotionFit K) (grid : ℕ → ℕ → K × K) (fr : ℕ)
    (x : ℕ → K) (d : ℕ) : ℕ → K :=
  Function.update
    (Function.update x (slot st fr d) ((cVec st grid fr d).1 / st.eigenVals d))
    (slot st fr d + 1) ((cVec st grid fr d).2 / st.eigenVals d)

/-- The d-loop of posToParams at a fixed transition fr. -/
def coeffFoldD (st : GpMotionFit K) (grid : ℕ → ℕ → K × K) (fr : ℕ)
    (x : ℕ → K) : ℕ → K :=
  (List.range st.dc).foldl (coeffStepD st grid fr) x

/-- GpMotionFit::posToParams: copy the frame-0 positions, then for every
transition fr < fc-1 and mode d < dc store the normalized projection of the
velocity onto the basis column. -/
def posToParams (st : GpMotionFit K) (grid : ℕ → ℕ → K × K)
    (x0 : ℕ → K) : ℕ → K :=
  (List.range (st.fc - 1)).foldl (fun x fr => coeffFoldD st grid fr x)
    (posPartFold st grid x0)

/-- Squared distance between the reference positions of particles i and j:
(positions[i] - positions[j]).norm2() in the source. -/
def dist2 (positions : ℕ → ℝ × ℝ) (i j : ℕ) : ℝ :=
  ((positions i).1 - (positions j).1) * ((positions i).1 - (positions j).1) +
  ((positions i).2 - (positions j).2) * ((positions i).2 - (positions j).2)

/-- Covariance kernel entry A(i,j) assembled by the constructor:
sv2 * (expKer ? exp(-sqrt(dd/sd2)) : exp(-0.5*dd/sd2)). -/
noncomputable def covA (sig_vel_px sig_div_px : ℝ) (expKer : Bool)
    (positions : ℕ → ℝ × ℝ) (i j : ℕ) : ℝ :=
  (sig_vel_px * sig_vel_px) *
    (if expKer then
      Real.exp (-Real.sqrt (dist2 positions i j / (sig_div_px * sig_div_px)))
    else
      Real.exp (-0.5 * dist2 positions i j / (sig_div_px * sig_div_px)))

/-- Basis entry built by the constructor from the decomposition:
basis(p,d) = sqrt(S(d)) * Vt(p,d). -/
noncomputable def basisOf (S : ℕ → ℝ) (Vt : ℕ → ℕ → ℝ) (p d : ℕ) : ℝ :=
  Real.sqrt (S d) * Vt p d

/-- Retained dimension count set by the constructor:
dc = (maxDims > pc) ? pc : maxDims. -/
def dcOf (maxDims pcN : ℕ) : ℕ :=
  if maxDims > pcN then pcN else maxDims

/-- One particle, two frames, one mode, unit basis and eigenvalue, no
acceleration term; the correlation value is the x coordinate itself, so its
true gradient is the constant (1,0), which is what corrGrad returns. -/
def stC1 : GpMotionFit ℝ where
  pc := 1
  fc := 2
  dc := 1
  sig_acc_px := 0
  basis := fun _ _ => 1
  eigenVals := fun _ => 1
  perFrameOffsets := fun _ => (0, 0)
  corrVal := fun _ _ q => q.1
  corrGrad := fun _ _ _ => (1, 0)

/-- Zero parameter vector for the stC1 instance. -/
def xC1 : ℕ → ℝ := fun _ => 0

/-- Two particles, three frames, one retained mode (dc < pc): the shape on
which the regularization loop bound d < pc diverges from d < dc. -/
def stC2 : GpMotionFit ℚ where
  pc := 2
  fc := 3
  dc := 1
  sig_acc_px := 0
  basis := fun _ _ => 1
  eigenVals := fun _ => 1
  perFrameOffsets := fun _ => (0, 0)
  corrVal := fun _ _ _ => 0
  corrGrad := fun _ _ _ => (0, 0)

/-- Parameter vector for stC2 whose only nonzero entry is the coefficient
slot 6 (transition 1, mode 0). -/
def xC2 : ℕ → ℚ := fun i => if i = 6 then 1 else 0

/-- One particle, three frames, one mode; the correlation gradient is 1 on
frame 1 and 5 on frame 2, distinguishing which frames the reverse loop of
grad actually accumulates. -/
def stC3 : GpMotionFit ℚ where
  pc := 1
  fc := 3
  dc := 1
  sig_acc_px := 0
  basis := fun _ _ => 1
  eigenVals := fun _ => 1
  perFrameOffsets := fun _ => (0, 0)
  corrVal := fun _ _ _ => 0
  corrGrad := fun _ fr _ => (if fr = 1 then 1 else if fr = 2 then 5 else 100, 0)

/-- Two particles, two frames, one retained mode: the parameter and gradient
vectors have length 6, yet the regularization loop of grad touches index 7. -/
def stC4 : GpMotionFit ℚ where
  pc := 2
  fc := 2
  dc := 1
  sig_acc_px := 0
  basis := fun _ _ => 1
  eigenVals := fun _ => 1
  perFrameOffsets := fun _ => (0, 0)
  corrVal := fun _ _ _ => 0
  corrGrad := fun _ _ _ => (0, 0)

/-- Parameter vector for stC4 whose only nonzero entry is index 7, one past
the last valid index of the expected length-6 vector. -/
def xC4 : ℕ → ℚ := fun i => if i = 7 then 1 else 0

/-- Witness instance for the paramsToPos recurrence. -/
def stC6w : GpMotionFit ℝ where
  pc := 1
  fc := 2
  dc := 1
  sig_acc_px := 0
  basis := fun _ _ => 1
  eigenVals := fun _ => 1
  perFrameOffsets := fun _ => (0, 0)
  corrVal := fun _ _ _ => 0
  corrGrad := fun _ _ _ => (0, 0)

/-- Witness parameter vector for the paramsToPos recurrence. -/
def xC6w : ℕ → ℝ := fun i => (i : ℝ)

/-- Witness instance for the round-trip: unit basis column and unit
eigenvalue, so the basis column is orthonormal in the weighted sense. -/
def stC7w : GpMotionFit ℝ where
  pc := 1
  fc := 2
  dc := 1
  sig_acc_px := 0
  basis := fun _ _ => 1
  eigenVals := fun _ => 1
  perFrameOffsets := fun _ => (0, 0)
  corrVal := fun _ _ _ => 0
  corrGrad := fun _ _ _ => (0, 0)

/-- Witness parameter vector for the round-trip. -/
def xC7w : ℕ → ℝ := fun i => (i : ℝ)

/-- Witness instance for gradient-destination independence. -/
def stC10w : GpMotionFit ℝ where
  pc := 1
  fc := 2
  dc := 1
  sig_acc_px := 0
  basis := fun _ _ => 1
  eigenVals := fun _ => 1
  perFrameOffsets := fun _ => (0, 0)
  corrVal := fun _ _ _ => 0
  corrGrad := fun _ _ _ => (0, 0)

/-! Generic fold lemmas converting the loop accumulations into big sums. -/

theorem foldl_congr_add (step : K → ℕ → K) (g : ℕ → K)
    (h : ∀ a i, step a i = a + g i) :
    ∀ (n : ℕ) (b : K),
      (List.range n).foldl step b = b + ∑ i in Finset.range n, g i := by
  intro n
  induction n with
  | zero => intro b; simp
  | succ n ih =>
      intro b
      rw [List.range_succ, List.foldl_append, List.foldl_cons, List.foldl_nil,
        ih, h, Finset.sum_range_succ]
      ring

theorem foldl_congr_sub (step : K → ℕ → K) (g : ℕ → K)
    (h : ∀ a i, step a i = a - g i) :
    ∀ (n : ℕ) (b : K),
      (List.range n).foldl step b = b - ∑ i in Finset.range n, g i := by
  intro n
  induction n with
  | zero => intro b; simp
  | succ n ih =>
      intro b
      rw [List.range_succ, List.foldl_append, List.foldl_cons, List.foldl_nil,
        ih, h, Finset.sum_range_succ]
      ring

theorem foldl_pair_add (g1 g2 : ℕ → K) (n : ℕ) (b : K × K) :
    (List.range n).foldl (fun v i => (v.1 + g1 i, v.2 + g2 i)) b
      = (b.1 + ∑ i in Finset.range n, g1 i,
         b.2 + ∑ i in Finset.range n, g2 i) := by
  induction n with
  | zero => simp
  | succ n ih =>
      rw [List.range_succ, List.foldl_append, List.foldl_cons, List.foldl_nil,
        ih, Finset.sum_range_succ, Finset.sum_range_succ]
      simp [Prod.ext_iff]
      constructor <;> ring

/-! Characterization of the paramsToPos frame loop. -/

theorem velocity_def (st : GpMotionFit K) (x : ℕ → K) (p fr : ℕ) :
    velocity st x p fr
      = (∑ d in Finset.range st.dc, x (slot st fr d) * st.basis p d,
         ∑ d in Finset.range st.dc, x (slot st fr d + 1) * st.basis p d) := by
  unfold velocity
  rw [foldl_pair_add]
  simp

theorem posAux_pp (st : GpMotionFit K) (x : ℕ → K) (p : ℕ) :
    ∀ n, n ≤ st.fc - 1 → (posAux st x p n).2 = ppIter st x p n := by
  intro n
  induction n with
  | zero => intro _; simp [posAux, ppIter]
  | succ n ih =>
      intro h
      unfold posAux
      rw [List.range_succ, List.foldl_append, List.foldl_cons, List.foldl_nil]
      show (posStep st x p (posAux st x p n) n).2 = _
      unfold posStep
      dsimp only
      have hn : n < st.fc - 1 := by omega
      rw [if_pos hn, ih (by omega)]
      simp [ppIter]

theorem posAux_grid (st : GpMotionFit K) (x : ℕ → K) (p : ℕ) :
    ∀ n, n ≤ st.fc → ∀ fr, fr < n →
      (posAux st x p n).1 fr = ppIter st x p fr := by
  intro n
  induction n with
  | zero => intro _ fr h; omega
  | succ n ih =>
      intro hn fr hfr
      unfold posAux
      rw [List.range_succ, List.foldl_append, List.foldl_cons, List.foldl_nil]
      show (posStep st x p (posAux st x p n) n).1 fr = _
      unfold posStep
      dsimp only
      rcases Nat.lt_succ_iff_lt_or_eq.mp hfr with h | h
      · rw [Function.update_noteq (by omega : fr ≠ n)]
        exact ih (by omega) fr h
      · subst h
        rw [Function.update_same]
        exact posAux_pp st x p fr (by omega)

theorem posAt_eq_ppIter (st : GpMotionFit K) (x : ℕ → K) (p fr : ℕ)
    (h : fr < st.fc) : posAt st x p fr = ppIter st x p fr :=
  posAux_grid st x p st.fc le_rfl fr h

theorem posAt_zero (st : GpMotionFit K) (x : ℕ → K) (p : ℕ)
    (h : 0 < st.fc) : posAt st x p 0 = (x (2 * p), x (2 * p + 1)) := by
  rw [posAt_eq_ppIter st x p 0 h]
  rfl

theorem posAt_succ (st : GpMotionFit K) (x : ℕ → K) (p fr : ℕ)
    (h : fr + 1 < st.fc) :
    posAt st x p (fr + 1)
      = ((posAt st x p fr).1 + (velocity st x p fr).1,
         (posAt st x p fr).2 + (velocity st x p fr).2) := by
  rw [posAt_eq_ppIter st x p (fr + 1) h,
    posAt_eq_ppIter st x p fr (by omega)]
  rfl

/-- C6: paramsToPos expands the flat vector x so that frame-0 positions are
the two leading slots of each particle, and each later frame adds, to the
position of the previous frame, the velocity obtained by summing over retained
modes the 2D coefficient at offset 2*(pc + dc*f + d) weighted by the
basis loading of the particle. -/
theorem paramsToPos_expand (st : GpMotionFit ℝ) (x : ℕ → ℝ) (p fr : ℕ) :
    (0 < st.fc → posAt st x p 0 = (x (2 * p), x (2 * p + 1)))
    ∧ (fr + 1 < st.fc →
        posAt st x p (fr + 1)
          = ((posAt st x p fr).1 +
               ∑ d in Finset.range st.dc, x (slot st fr d) * st.basis p d,
             (posAt st x p fr).2 +
               ∑ d in Finset.range st.dc, x (slot st fr d + 1) * st.basis p d)) := by
  constructor
  · intro h
    exact posAt_zero st x p h
  · intro h
    rw [posAt_succ st x p fr h, velocity_def]

/-- Witness for the paramsToPos recurrence at a concrete instance. -/
theorem paramsToPos_expand_witness :
    0 < stC6w.fc ∧ 0 + 1 < stC6w.fc
    ∧ posAt stC6w xC6w 0 0 = (xC6w (2 * 0), xC6w (2 * 0 + 1))
    ∧ posAt stC6w xC6w 0 (0 + 1)
        = ((posAt stC6w xC6w 0 0).1 +
             ∑ d in Finset.range stC6w.dc,
               xC6w (slot stC6w 0 d) * stC6w.basis 0 d,
           (posAt stC6w xC6w 0 0).2 +
             ∑ d in Finset.range stC6w.dc,
               xC6w (slot stC6w 0 d + 1) * stC6w.basis 0 d) :=
  ⟨by decide, by decide,
   (paramsToPos_expand stC6w xC6w 0 0).1 (by decide),
   (paramsToPos_expand stC6w xC6w 0 0).2 (by decide)⟩

/-- C5: the energy f is the sum of the negated correlation samples over all
particles and frames, the coefficient regularization over all transitions
and retained modes, and, only when sig_acc_px > 0, the eigenvalue-weighted
acceleration penalty over consecutive transition pairs. -/
theorem f_three_terms (st : GpMotionFit ℝ) (x : ℕ → ℝ) :
    f st x =
      -(∑ p in Finset.range st.pc, ∑ fr in Finset.range st.fc,
          st.corrVal p fr (samplePt st x p fr))
      + (∑ fr in Finset.range (st.fc - 1), ∑ d in Finset.range st.dc,
          (x (slot st fr d) ^ 2 + x (slot st fr d + 1) ^ 2))
      + (if 0 < st.sig_acc_px then
          ∑ fr in Finset.range (st.fc - 2), ∑ d in Finset.range st.dc,
            st.eigenVals d *
              ((x (slot st (fr + 1) d) - x (slot st fr d)) ^ 2 +
               (x (slot st (fr + 1) d + 1) - x (slot st fr d + 1)) ^ 2) /
              st.sig_acc_px ^ 2
        else 0) := by
  have hA : (List.range st.pc).foldl
      (fun e_tot p =>
        e_tot + (List.range st.fc).foldl
          (fun e fr => e - st.corrVal p fr (samplePt st x p fr)) 0) 0
      = -(∑ p in Finset.range st.pc, ∑ fr in Finset.range st.fc,
            st.corrVal p fr (samplePt st x p fr)) := by
    rw [foldl_congr_add _
      (fun p => (List.range st.fc).foldl
        (fun e fr => e - st.corrVal p fr (samplePt st x p fr)) 0)
      (fun a i => rfl)]
    have hI : ∀ p, (List.range st.fc).foldl
        (fun e fr => e - st.corrVal p fr (samplePt st x p fr)) 0
        = -(∑ fr in Finset.range st.fc, st.corrVal p fr (samplePt st x p fr)) := by
      intro p
      rw [foldl_congr_sub _
        (fun fr => st.corrVal p fr (samplePt st x p fr)) (fun a i => rfl)]
      ring
    simp only [hI]
    rw [Finset.sum_neg_distrib]
    ring
  have hB : ∀ b : ℝ, (List.range (st.fc - 1)).foldl
      (fun e_tot fr =>
        (List.range st.dc).foldl
          (fun e d =>
            e + (x (slot st fr d) * x (slot st fr d) +
                 x (slot st fr d + 1) * x (slot st fr d + 1)))
          e_tot) b
      = b + ∑ fr in Finset.range (st.fc - 1), ∑ d in Finset.range st.dc,
          (x (slot st fr d) ^ 2 + x (slot st fr d + 1) ^ 2) := by
    intro b
    rw [foldl_congr_add _
      (fun fr => ∑ d in Finset.range st.dc,
        (x (slot st fr d) ^ 2 + x (slot st fr d + 1) ^ 2))
      (fun a fr => by
        rw [foldl_congr_add _
          (fun d => x (slot st fr d) ^ 2 + x (slot st fr d + 1) ^ 2)
          (fun e d => by ring)])]
  have hC : ∀ b : ℝ, (List.range (st.fc - 2)).foldl
      (fun e_tot fr =>
        (List.range st.dc).foldl
          (fun e d =>
            e + st.eigenVals d *
              ((x (slot st (fr + 1) d) - x (slot st fr d)) *
               (x (slot st (fr + 1) d) - x (slot st fr d)) +
               (x (slot st (fr + 1) d + 1) - x (slot st fr d + 1)) *
               (x (slot st (fr + 1) d + 1) - x (slot st fr d + 1))) /
              (st.sig_acc_px * st.sig_acc_px))
          e_tot) b
      = b + ∑ fr in Finset.range (st.fc - 2), ∑ d in Finset.range st.dc,
          st.eigenVals d *
            ((x (slot st (fr + 1) d) - x (slot st fr d)) ^ 2 +
             (x (slot st (fr + 1) d + 1) - x (slot st fr d + 1)) ^ 2) /
            st.sig_acc_px ^ 2 := by
    intro b
    rw [foldl_congr_add _
      (fun fr => ∑ d in Finset.range st.dc,
        st.eigenVals d *
          ((x (slot st (fr + 1) d) - x (slot st fr d)) ^ 2 +
           (x (slot st (fr + 1) d + 1) - x (slot st fr d + 1)) ^ 2) /
          st.sig_acc_px ^ 2)
      (fun a fr => by
        rw [foldl_congr_add _
          (fun d => st.eigenVals d *
            ((x (slot st (fr + 1) d) - x (slot st fr d)) ^ 2 +
             (x (slot st (fr + 1) d + 1) - x (slot st fr d + 1)) ^ 2) /
            st.sig_acc_px ^ 2)
          (fun e d => by ring)])]
  unfold f
  by_cases hc : 0 < st.sig_acc_px
  · rw [if_pos hc, if_pos hc, hC, hB, hA]
  · rw [if_neg hc, if_neg hc, hB, hA]
    ring

/-- C2: refuted as stated. In the regularization loop of grad the mode index
runs to pc, not dc. On stC2 (pc = 2, dc = 1, fc = 3) the slot 6 of the
retained coefficient (transition 1, mode 0) receives 4 = 2*(2*x[6]) — its
own contribution plus a second one from the out-of-range mode d = 1 of
transition 0, whose slot 2*(pc + dc*0 + 1) collides with it — whereas the
claim says every retained slot receives exactly 2*x[slot] and nothing else. -/
theorem gradReg_extra_contribution :
    gradReg stC2 xC2 (fun _ => 0) 6 = 4
    ∧ slot stC2 1 0 = 6
    ∧ 2 * xC2 (slot stC2 1 0) = 2
    ∧ ((4 : ℚ) ≠ 2) := by
  refine ⟨?_, by decide, ?_, by norm_num⟩
  · norm_num [gradReg, stC2, xC2, addAt, slot, List.range_succ, Function.update]
  · norm_num [xC2, stC2, slot]

/-- C3: refuted as stated on the code. The reverse frame loop of grad adds
the correlation gradient of the visited frame fr itself before writing the
slot of transition fr, so the slot of transition 1 on stC3 (fc = 3) receives
minus the basis-weighted gradient of frame 1, namely -1, and not the
basis-weighted gradient of the later frame 2 (value 5, in either sign
convention), as summing over frames f+1..fc-1 would give. -/
theorem gradCoeff_wrong_frame_window :
    gradCoeff stC3 (fun _ => 0) (fun _ => 0) (slot stC3 1 0) = -1
    ∧ slot stC3 1 0 = 4
    ∧ stC3.basis 0 0 * (ccg stC3 (fun _ => 0) 0 2).1 = 5
    ∧ ((-1 : ℚ) ≠ 5) ∧ ((-1 : ℚ) ≠ -5) := by
  refine ⟨?_, by decide, ?_, by norm_num, by norm_num⟩
  · norm_num [gradCoeff, gradCoeffInner, stC3, ccg, addAt, subAt, slot,
      List.range_succ, Function.update]
  · norm_num [stC3, ccg]

/-- C4: refuted as stated. On stC4 (pc = 2, dc = 1, fc = 2) the expected
vector length is 6, yet grad writes gradDest[7] (the written value 2 equals
2*x[7], so index 7 of x is read as well): the regularization loop bound
d < pc walks past the retained modes and out of both vectors. -/
theorem grad_out_of_bounds_access :
    grad stC4 xC4 (fun _ => 0) (paramLength stC4) 7 = 2
    ∧ 2 * xC4 7 = 2
    ∧ paramLength stC4 = 6
    ∧ ¬ (7 < 6) := by
  refine ⟨?_, by norm_num [xC4], by decide, by norm_num⟩
  norm_num [grad, gradAcc, gradReg, gradCoeff, gradCoeffInner, gradFrame0,
    gradZero, ccg, stC4, xC4, addAt, subAt, slot, paramLength,
    List.range_succ, Function.update]

/-! Destination independence of grad: every loop of grad only ever adds to
or subtracts from entries, by values that do not depend on the destination
array, so pointwise differences of two destination arrays are preserved by
every stage; the zeroing loop then erases the difference below the size. -/

theorem addAt_diff (g h : ℕ → K) (j : ℕ) (v : K) (i : ℕ) :
    addAt g j v i - addAt h j v i = g i - h i := by
  unfold addAt
  rcases eq_or_ne i j with rfl | hij
  · rw [Function.update_same, Function.update_same]
    ring
  · rw [Function.update_noteq hij, Function.update_noteq hij]

theorem subAt_diff (g h : ℕ → K) (j : ℕ) (v : K) (i : ℕ) :
    subAt g j v i - subAt h j v i = g i - h i := by
  unfold subAt
  rcases eq_or_ne i j with rfl | hij
  · rw [Function.update_same, Function.update_same]
    ring
  · rw [Function.update_noteq hij, Function.update_noteq hij]

theorem foldl_diff {α : Type} (step : (ℕ → K) → α → (ℕ → K))
    (hstep : ∀ g h a i, step g a i - step h a i = g i - h i) :
    ∀ (l : List α) (g h : ℕ → K) (i : ℕ),
      l.foldl step g i - l.foldl step h i = g i - h i := by
  intro l
  induction l with
  | nil => intro g h i; rfl
  | cons a l ih =>
      intro g h i
      rw [List.foldl_cons, List.foldl_cons]
      rw [ih (step g a) (step h a) i, hstep]

theorem gradFrame0_diff (st : GpMotionFit K) (x : ℕ → K) (g h : ℕ → K)
    (i : ℕ) : gradFrame0 st x g i - gradFrame0 st x h i = g i - h i := by
  unfold gradFrame0
  apply foldl_diff
  intro g h p i
  apply foldl_diff
  intro g h fr i
  rw [addAt_diff, addAt_diff]

theorem gradCoeffInner_diff (st : GpMotionFit K) (x : ℕ → K) (d p : ℕ)
    (g h : ℕ → K) (i : ℕ) :
    gradCoeffInner st x d p g i - gradCoeffInner st x d p h i = g i - h i := by
  unfold gradCoeffInner
  have key : ∀ (l : List ℕ) (gv : K × K) (g h : ℕ → K),
      (l.foldl
        (fun (s : (K × K) × (ℕ → K)) fr =>
          ((s.1.1 + st.basis p d * (ccg st x p fr).1,
            s.1.2 + st.basis p d * (ccg st x p fr).2),
           subAt
             (subAt s.2 (slot st fr d)
               (s.1.1 + st.basis p d * (ccg st x p fr).1))
             (slot st fr d + 1)
             (s.1.2 + st.basis p d * (ccg st x p fr).2)))
        (gv, g)).1
      = (l.foldl
          (fun (s : (K × K) × (ℕ → K)) fr =>
            ((s.1.1 + st.basis p d * (ccg st x p fr).1,
              s.1.2 + st.basis p d * (ccg st x p fr).2),
             subAt
               (subAt s.2 (slot st fr d)
                 (s.1.1 + st.basis p d * (ccg st x p fr).1))
               (slot st fr d + 1)
               (s.1.2 + st.basis p d * (ccg st x p fr).2)))
          (gv, h)).1
      ∧ ∀ i, (l.foldl
          (fun (s : (K × K) × (ℕ → K)) fr =>
            ((s.1.1 + st.basis p d * (ccg st x p fr).1,
              s.1.2 + st.basis p d * (ccg st x p fr).2),
             subAt
               (subAt s.2 (slot st fr d)
                 (s.1.1 + st.basis p d * (ccg st x p fr).1))
               (slot st fr d + 1)
               (s.1.2 + st.basis p d * (ccg st x p fr).2)))
          (gv, g)).2 i
        - (l.foldl
            (fun (s : (K × K) × (ℕ → K)) fr =>
              ((s.1.1 + st.basis p d * (ccg st x p fr).1,
                s.1.2 + st.basis p d * (ccg st x p fr).2),
               subAt
                 (subAt s.2 (slot st fr d)
                   (s.1.1 + st.basis p d * (ccg st x p fr).1))
                 (slot st fr d + 1)
                 (s.1.2 + st.basis p d * (ccg st x p fr).2)))
            (gv, h)).2 i
        = g i - h i := by
    intro l
    induction l with
    | nil => intro gv g h; exact ⟨rfl, fun i => rfl⟩
    | cons fr l ih =>
        intro gv g h
        rw [List.foldl_cons, List.foldl_cons]
        refine (ih _ _ _).imp (fun h1 => h1) (fun h2 i => ?_)
        rw [h2, subAt_diff, subAt_diff]
  exact (key _ _ g h).2 i

theorem gradCoeff_diff (st : GpMotionFit K) (x : ℕ → K) (g h : ℕ → K)
    (i : ℕ) : gradCoeff st x g i - gradCoeff st x h i = g i - h i := by
  unfold gradCoeff
  apply foldl_diff
  intro g h d i
  apply foldl_diff
  intro g h p i
  exact gradCoeffInner_diff st x d p g h i

theorem gradReg_diff (st : GpMotionFit K) (x : ℕ → K) (g h : ℕ → K)
    (i : ℕ) : gradReg st x g i - gradReg st x h i = g i - h i := by
  unfold gradReg
  apply foldl_diff
  intro g h fr i
  apply foldl_diff
  intro g h d i
  rw [addAt_diff, addAt_diff]

theorem gradAcc_diff (st : GpMotionFit K) (x : ℕ → K) (g h : ℕ → K)
    (i : ℕ) : gradAcc st x g i - gradAcc st x h i = g i - h i := by
  unfold gradAcc
  by_cases hc : 0 < st.sig_acc_px
  · rw [if_pos hc, if_pos hc]
    apply foldl_diff
    intro g h fr i
    apply foldl_diff
    intro g h d i
    rw [addAt_diff, addAt_diff, subAt_diff, subAt_diff]
  · rw [if_neg hc, if_neg hc]

theorem gradZero_lt (g0 : ℕ → K) (n : ℕ) :
    ∀ i < n, gradZero g0 n i = 0 := by
  unfold gradZero
  induction n with
  | zero => intro i h; omega
  | succ n ih =>
      intro i h
      rw [List.range_succ, List.foldl_append, List.foldl_cons, List.foldl_nil]
      rcases Nat.lt_succ_iff_lt_or_eq.mp h with h | h
      · rw [Function.update_noteq (by omega : i ≠ n)]
        exact ih i h
      · subst h
        rw [Function.update_same]

/-- C10: grad zeroes every entry of the destination below its size before
accumulating, and consequently, at every index below the expected length,
the result of grad does not depend on the prior contents of the
destination vector. -/
theorem grad_dest_independent (st : GpMotionFit ℝ) (x : ℕ → ℝ)
    (g1 g2 : ℕ → ℝ) (i : ℕ) (hi : i < paramLength st) :
    gradZero g1 (paramLength st) i = 0
    ∧ grad st x g1 (paramLength st) i = grad st x g2 (paramLength st) i := by
  refine ⟨gradZero_lt g1 (paramLength st) i hi, ?_⟩
  have h : grad st x g1 (paramLength st) i - grad st x g2 (paramLength st) i
      = gradZero g1 (paramLength st) i - gradZero g2 (paramLength st) i := by
    unfold grad
    rw [gradAcc_diff, gradReg_diff, gradCoeff_diff, gradFrame0_diff]
  rw [gradZero_lt g1 (paramLength st) i hi,
    gradZero_lt g2 (paramLength st) i hi, sub_self] at h
  exact sub_eq_zero.mp h

/-- Witness for destination independence at a concrete instance. -/
theorem grad_dest_independent_witness :
    0 < paramLength stC10w
    ∧ (gradZero (fun _ => (5 : ℝ)) (paramLength stC10w) 0 = 0
       ∧ grad stC10w (fun _ => 0) (fun _ => (5 : ℝ)) (paramLength stC10w) 0
         = grad stC10w (fun _ => 0) (fun _ => (7 : ℝ)) (paramLength stC10w) 0) :=
  ⟨by decide,
   grad_dest_independent stC10w (fun _ => 0) (fun _ => 5) (fun _ => 7) 0
     (by decide)⟩

/-- On the stC1 instance (corrVal is the x coordinate, corrGrad its true
constant gradient (1,0)), the energy as a function of parameter slot 0 is
exactly -2*t. -/
theorem f_stC1_eval (t : ℝ) : f stC1 (Function.update xC1 0 t) = -2 * t := by
  have h0 : posAt stC1 (Function.update xC1 0 t) 0 0 = (t, 0) := by
    rw [posAt_zero _ _ _ (by decide)]
    norm_num [xC1, Function.update]
  have h1 : posAt stC1 (Function.update xC1 0 t) 0 1 = (t, 0) := by
    rw [show (1 : ℕ) = 0 + 1 from rfl, posAt_succ _ _ _ _ (by decide), h0,
      velocity_def]
    norm_num [slot, stC1, xC1, Function.update]
  unfold f
  have hfc : stC1.fc = 2 := rfl
  have hpcv : stC1.pc = 1 := rfl
  have hdcv : stC1.dc = 1 := rfl
  have hsig : stC1.sig_acc_px = (0 : ℝ) := rfl
  have hslot : slot stC1 0 0 = 2 := rfl
  have hoff : ∀ fr, stC1.perFrameOffsets fr = (0, 0) := fun _ => rfl
  have hcv : ∀ p fr q, stC1.corrVal p fr q = q.1 := fun _ _ _ => rfl
  simp only [hfc, hpcv, hdcv, hsig, hslot, hcv]
  norm_num [List.range_succ, samplePt, hoff, hslot, h0, h1, xC1,
    Function.update]
  ring

/-- C1: refuted as stated. On stC1 — where corrGrad really is the exact
derivative of corrVal, with the acceleration term disabled — the partial
derivative of f with respect to parameter slot 0 (the frame-0 x position)
is -2, but grad returns +2 in that slot: the frame-0 loop of grad adds the
raw correlation gradients without the minus sign required by the negated
correlation term of the energy, so grad is not the analytic gradient of f. -/
theorem grad_sign_defect :
    HasDerivAt (fun t : ℝ => f stC1 (Function.update xC1 0 t)) (-2) 0
    ∧ grad stC1 xC1 (fun _ => 0) (paramLength stC1) 0 = 2
    ∧ ((-2 : ℝ) ≠ 2) := by
  refine ⟨?_, ?_, by norm_num⟩
  · have h : (fun t : ℝ => f stC1 (Function.update xC1 0 t))
        = fun t => -2 * t := funext f_stC1_eval
    rw [h]
    simpa using (hasDerivAt_id (0 : ℝ)).const_mul (-2)
  · norm_num [grad, gradAcc, gradReg, gradCoeff, gradCoeffInner, gradFrame0,
      gradZero, ccg, stC1, xC1, addAt, subAt, slot, paramLength,
      List.range_succ, Function.update]

/-- C9: the covariance entry built by the constructor is symmetric and
equals sig_vel_px^2 * exp(-sqrt(dd)/sig_div_px) for the exponential kernel
(the exponent scales by 1/sig_div_px, the square root being taken of
dd/sig_div_px^2) and sig_vel_px^2 * exp(-0.5*dd/sig_div_px^2) for the
Gaussian kernel, for a positive decorrelation length. -/
theorem covA_kernel_forms (sv sd : ℝ) (hsd : 0 < sd)
    (positions : ℕ → ℝ × ℝ) (i j : ℕ) :
    covA sv sd true positions i j
      = sv ^ 2 * Real.exp (-Real.sqrt (dist2 positions i j) / sd)
    ∧ covA sv sd false positions i j
      = sv ^ 2 * Real.exp (-(0.5 * dist2 positions i j) / sd ^ 2)
    ∧ covA sv sd true positions i j = covA sv sd true positions j i
    ∧ covA sv sd false positions i j = covA sv sd false positions j i := by
  have hdd : 0 ≤ dist2 positions i j := by
    unfold dist2
    have h1 := mul_self_nonneg ((positions i).1 - (positions j).1)
    have h2 := mul_self_nonneg ((positions i).2 - (positions j).2)
    linarith
  have hsym : dist2 positions i j = dist2 positions j i := by
    unfold dist2
    ring
  refine ⟨?_, ?_, ?_, ?_⟩
  · simp only [covA, if_true]
    rw [Real.sqrt_div hdd, Real.sqrt_mul_self hsd.le, neg_div]
    ring
  · simp only [covA, Bool.false_eq_true, if_false]
    have harg : -0.5 * dist2 positions i j / (sd * sd)
        = -(0.5 * dist2 positions i j) / sd ^ 2 := by
      ring
    rw [harg]
    ring
  · unfold covA
    rw [hsym]
  · unfold covA
    rw [hsym]

/-- Witness for the kernel forms at a concrete instance. -/
theorem covA_kernel_forms_witness :
    (0 : ℝ) < 1
    ∧ (covA 1 1 true (fun _ => (0, 0)) 0 0
        = 1 ^ 2 * Real.exp (-Real.sqrt (dist2 (fun _ => (0, 0)) 0 0) / 1)
      ∧ covA 1 1 false (fun _ => (0, 0)) 0 0
        = 1 ^ 2 * Real.exp (-(0.5 * dist2 (fun _ => (0, 0)) 0 0) / 1 ^ 2)
      ∧ covA 1 1 true (fun _ => (0, 0)) 0 0
        = covA 1 1 true (fun _ => (0, 0)) 0 0
      ∧ covA 1 1 false (fun _ => (0, 0)) 0 0
        = covA 1 1 false (fun _ => (0, 0)) 0 0) :=
  ⟨by norm_num, covA_kernel_forms 1 1 (by norm_num) (fun _ => (0, 0)) 0 0⟩

/-- C8: with no truncation (dc = pc) the basis built from the decomposition
reconstructs the covariance matrix exactly, for either kernel variant, given
the decomposition guarantee A = Vt diag(S) Vt^T with nonnegative singular
values. -/
theorem basis_reconstructs_covA (sv sd : ℝ) (expKer : Bool)
    (positions : ℕ → ℝ × ℝ) (maxDims pcN : ℕ) (S : ℕ → ℝ) (Vt : ℕ → ℕ → ℝ)
    (hdc : dcOf maxDims pcN = pcN)
    (hS : ∀ d < pcN, 0 ≤ S d)
    (hA : ∀ i < pcN, ∀ j < pcN,
      covA sv sd expKer positions i j
        = ∑ d in Finset.range pcN, Vt i d * S d * Vt j d)
    (i j : ℕ) (hi : i < pcN) (hj : j < pcN) :
    ∑ d in Finset.range (dcOf maxDims pcN),
        basisOf S Vt i d * basisOf S Vt j d
      = covA sv sd expKer positions i j := by
  rw [hdc, hA i hi j hj]
  apply Finset.sum_congr rfl
  intro d hd
  unfold basisOf
  have h := Real.mul_self_sqrt (hS d (Finset.mem_range.mp hd))
  calc Real.sqrt (S d) * Vt i d * (Real.sqrt (S d) * Vt j d)
      = Real.sqrt (S d) * Real.sqrt (S d) * (Vt i d * Vt j d) := by ring
    _ = Vt i d * S d * Vt j d := by rw [h]; ring

/-- Witness for the basis reconstruction at a concrete 1-particle instance. -/
theorem basis_reconstructs_covA_witness :
    dcOf 1 1 = 1
    ∧ (∀ d < 1, (0 : ℝ) ≤ (fun _ => (1 : ℝ)) d)
    ∧ (∀ i < 1, ∀ j < 1,
        covA 1 1 true (fun _ => (0, 0)) i j
          = ∑ d in Finset.range 1,
              (fun _ _ => (1 : ℝ)) i d * (fun _ => (1 : ℝ)) d *
                (fun _ _ => (1 : ℝ)) j d)
    ∧ ∑ d in Finset.range (dcOf 1 1),
          basisOf (fun _ => 1) (fun _ _ => 1) 0 d *
            basisOf (fun _ => 1) (fun _ _ => 1) 0 d
        = covA 1 1 true (fun _ => (0, 0)) 0 0 := by
  have hA : ∀ i < 1, ∀ j < 1,
      covA 1 1 true (fun _ => ((0 : ℝ), (0 : ℝ))) i j
        = ∑ d in Finset.range 1,
            (fun _ _ => (1 : ℝ)) i d * (fun _ => (1 : ℝ)) d *
              (fun _ _ => (1 : ℝ)) j d := by
    intro i _ j _
    simp [covA, dist2]
  exact ⟨by decide, by norm_num,
    hA,
    basis_reconstructs_covA 1 1 true (fun _ => (0, 0)) 1 1 (fun _ => 1)
      (fun _ _ => 1) (by decide) (by norm_num) hA 0 0 (by norm_num)
      (by norm_num)⟩

/-! Characterization of posToParams: the two update loops write disjoint
index sets (frame-0 slots below 2*pc, coefficient slots at and above 2*pc),
and within the coefficient loop the slot map (fr, d) → 2*(pc + dc*fr + d)
is injective for d < dc. -/

theorem mulAdd_inj (dcN fr d fr2 d2 : ℕ) (hd : d < dcN) (hd2 : d2 < dcN)
    (h : dcN * fr + d = dcN * fr2 + d2) : fr = fr2 ∧ d = d2 := by
  rcases Nat.lt_trichotomy fr fr2 with hlt | heq | hgt
  · have hk : dcN * fr + dcN ≤ dcN * fr2 := by
      calc dcN * fr + dcN = dcN * (fr + 1) := (Nat.mul_succ dcN fr).symm
        _ ≤ dcN * fr2 := Nat.mul_le_mul_left dcN hlt
    omega
  · subst heq
    omega
  · have hk : dcN * fr2 + dcN ≤ dcN * fr := by
      calc dcN * fr2 + dcN = dcN * (fr2 + 1) := (Nat.mul_succ dcN fr2).symm
        _ ≤ dcN * fr := Nat.mul_le_mul_left dcN hgt
    omega

theorem slot_inj (st : GpMotionFit K) (fr d fr2 d2 : ℕ) (hd : d < st.dc)
    (hd2 : d2 < st.dc) (h : slot st fr d = slot st fr2 d2) :
    fr = fr2 ∧ d = d2 := by
  unfold slot at h
  exact mulAdd_inj st.dc fr d fr2 d2 hd hd2 (by omega)

theorem posPart_untouched (grid : ℕ → ℕ → K × K) (x0 : ℕ → K) :
    ∀ n i, (∀ p < n, 2 * p ≠ i ∧ 2 * p + 1 ≠ i) →
      ((List.range n).foldl (posPartStep grid) x0) i = x0 i := by
  intro n
  induction n with
  | zero => intro i _; rfl
  | succ n ih =>
      intro i h
      rw [List.range_succ, List.foldl_append, List.foldl_cons, List.foldl_nil]
      unfold posPartStep
      have hn := h n (Nat.lt_succ_self n)
      rw [Function.update_noteq (Ne.symm hn.2), Function.update_noteq (Ne.symm hn.1)]
      exact ih i (fun p hp => h p (by omega))

theorem posPart_at (grid : ℕ → ℕ → K × K) (x0 : ℕ → K) :
    ∀ n p, p < n →
      ((List.range n).foldl (posPartStep grid) x0) (2 * p) = (grid p 0).1
      ∧ ((List.range n).foldl (posPartStep grid) x0) (2 * p + 1) = (grid p 0).2 := by
  intro n
  induction n with
  | zero => intro p h; omega
  | succ n ih =>
      intro p hp
      rw [List.range_succ, List.foldl_append, List.foldl_cons, List.foldl_nil]
      unfold posPartStep
      rcases Nat.lt_succ_iff_lt_or_eq.mp hp with h | h
      · constructor
        · rw [Function.update_noteq (by omega), Function.update_noteq (by omega)]
          exact (ih p h).1
        · rw [Function.update_noteq (by omega), Function.update_noteq (by omega)]
          exact (ih p h).2
      · subst h
        constructor
        · rw [Function.update_noteq (by omega), Function.update_same]
        · rw [Function.update_same]

theorem coeffD_untouched (st : GpMotionFit K) (grid : ℕ → ℕ → K × K)
    (fr : ℕ) (x : ℕ → K) :
    ∀ m i, (∀ d < m, slot st fr d ≠ i ∧ slot st fr d + 1 ≠ i) →
      ((List.range m).foldl (coeffStepD st grid fr) x) i = x i := by
  intro m
  induction m with
  | zero => intro i _; rfl
  | succ m ih =>
      intro i h
      rw [List.range_succ, List.foldl_append, List.foldl_cons, List.foldl_nil]
      unfold coeffStepD
      have hm := h m (Nat.lt_succ_self m)
      rw [Function.update_noteq (Ne.symm hm.2), Function.update_noteq (Ne.symm hm.1)]
      exact ih i (fun d hd => h d (by omega))

theorem coeffD_at (st : GpMotionFit K) (grid : ℕ → ℕ → K × K)
    (fr : ℕ) (x : ℕ → K) :
    ∀ m, m ≤ st.dc → ∀ d, d < m →
      ((List.range m).foldl (coeffStepD st grid fr) x) (slot st fr d)
        = (cVec st grid fr d).1 / st.eigenVals d
      ∧ ((List.range m).foldl (coeffStepD st grid fr) x) (slot st fr d + 1)
        = (cVec st grid fr d).2 / st.eigenVals d := by
  intro m
  induction m with
  | zero => intro _ d h; omega
  | succ m ih =>
      intro hm d hd
      rw [List.range_succ, List.foldl_append, List.foldl_cons, List.foldl_nil]
      unfold coeffStepD
      rcases Nat.lt_succ_iff_lt_or_eq.mp hd with h | h
      · have hne1 : slot st fr d ≠ slot st fr m := fun hcon => by
          rcases slot_inj st fr d fr m (by omega) (by omega) hcon with ⟨_, h2⟩
          omega
        have hne2 : slot st fr d ≠ slot st fr m + 1 := by
          unfold slot
          omega
        have hne3 : slot st fr d + 1 ≠ slot st fr m := by
          unfold slot
          omega
        have hne4 : slot st fr d + 1 ≠ slot st fr m + 1 := fun hcon =>
          hne1 (by omega)
        constructor
        · rw [Function.update_noteq hne2, Function.update_noteq hne1]
          exact (ih (by omega) d h).1
        · rw [Function.update_noteq hne4, Function.update_noteq hne3]
          exact (ih (by omega) d h).2
      · subst h
        constructor
        · rw [Function.update_noteq (by unfold slot; omega), Function.update_same]
        · rw [Function.update_same]

theorem coeffF_untouched (st : GpMotionFit K) (grid : ℕ → ℕ → K × K)
    (base : ℕ → K) :
    ∀ n i, (∀ fr < n, ∀ d < st.dc, slot st fr d ≠ i ∧ slot st fr d + 1 ≠ i) →
      ((List.range n).foldl (fun x fr => coeffFoldD st grid fr x) base) i
        = base i := by
  intro n
  induction n with
  | zero => intro i _; rfl
  | succ n ih =>
      intro i h
      rw [List.range_succ, List.foldl_append, List.foldl_cons, List.foldl_nil]
      show coeffFoldD st grid n _ i = base i
      unfold coeffFoldD
      rw [coeffD_untouched st grid n _ st.dc i (h n (Nat.lt_succ_self n))]
      exact ih i (fun fr hfr d hd => h fr (by omega) d hd)

theorem coeffF_at (st : GpMotionFit K) (grid : ℕ → ℕ → K × K)
    (base : ℕ → K) :
    ∀ n fr d, fr < n → d < st.dc →
      ((List.range n).foldl (fun x fr2 => coeffFoldD st grid fr2 x) base)
          (slot st fr d)
        = (cVec st grid fr d).1 / st.eigenVals d
      ∧ ((List.range n).foldl (fun x fr2 => coeffFoldD st grid fr2 x) base)
          (slot st fr d + 1)
        = (cVec st grid fr d).2 / st.eigenVals d := by
  intro n
  induction n with
  | zero => intro fr d h _; omega
  | succ n ih =>
      intro fr d hfr hd
      rw [List.range_succ, List.foldl_append, List.foldl_cons, List.foldl_nil]
      rcases Nat.lt_succ_iff_lt_or_eq.mp hfr with h | h
      · have hu1 : ∀ d2 < st.dc,
            slot st n d2 ≠ slot st fr d ∧ slot st n d2 + 1 ≠ slot st fr d := by
          intro d2 hd2
          constructor
          · intro hcon
            rcases slot_inj st n d2 fr d hd2 hd hcon with ⟨he, _⟩
            omega
          · unfold slot
            omega
        have hu2 : ∀ d2 < st.dc,
            slot st n d2 ≠ slot st fr d + 1
            ∧ slot st n d2 + 1 ≠ slot st fr d + 1 := by
          intro d2 hd2
          constructor
          · unfold slot
            omega
          · intro hcon
            rcases slot_inj st n d2 fr d hd2 hd (by omega) with ⟨he, _⟩
            omega
        constructor
        · show coeffFoldD st grid n _ (slot st fr d) = _
          unfold coeffFoldD
          rw [coeffD_untouched st grid n _ st.dc (slot st fr d) hu1]
          exact (ih fr d h hd).1
        · show coeffFoldD st grid n _ (slot st fr d + 1) = _
          unfold coeffFoldD
          rw [coeffD_untouched st grid n _ st.dc (slot st fr d + 1) hu2]
          exact (ih fr d h hd).2
      · subst h
        constructor
        · show coeffFoldD st grid fr _ (slot st fr d) = _
          unfold coeffFoldD
          exact (coeffD_at st grid fr _ st.dc le_rfl d hd).1
        · show coeffFoldD st grid fr _ (slot st fr d + 1) = _
          unfold coeffFoldD
          exact (coeffD_at st grid fr _ st.dc le_rfl d hd).2

theorem posToParams_at_pos (st : GpMotionFit K) (grid : ℕ → ℕ → K × K)
    (x0 : ℕ → K) (p : ℕ) (hp : p < st.pc) :
    posToParams st grid x0 (2 * p) = (grid p 0).1
    ∧ posToParams st grid x0 (2 * p + 1) = (grid p 0).2 := by
  unfold posToParams
  have h1 : ∀ i, i < 2 * st.pc →
      ∀ fr < st.fc - 1, ∀ d < st.dc,
        slot st fr d ≠ i ∧ slot st fr d + 1 ≠ i := by
    intro i hi fr _ d _
    unfold slot
    omega
  constructor
  · rw [coeffF_untouched st grid _ (st.fc - 1) (2 * p) (h1 _ (by omega))]
    show posPartFold st grid x0 (2 * p) = _
    unfold posPartFold
    exact (posPart_at grid x0 st.pc p hp).1
  · rw [coeffF_untouched st grid _ (st.fc - 1) (2 * p + 1) (h1 _ (by omega))]
    show posPartFold st grid x0 (2 * p + 1) = _
    unfold posPartFold
    exact (posPart_at grid x0 st.pc p hp).2

theorem posToParams_at_slot (st : GpMotionFit K) (grid : ℕ → ℕ → K × K)
    (x0 : ℕ → K) (fr d : ℕ) (hfr : fr < st.fc - 1) (hd : d < st.dc) :
    posToParams st grid x0 (slot st fr d)
      = (cVec st grid fr d).1 / st.eigenVals d
    ∧ posToParams st grid x0 (slot st fr d + 1)
      = (cVec st grid fr d).2 / st.eigenVals d := by
  unfold posToParams
  exact coeffF_at st grid (posPartFold st grid x0) (st.fc - 1) fr d hfr hd

theorem cVec_def (st : GpMotionFit K) (grid : ℕ → ℕ → K × K) (fr d : ℕ) :
    cVec st grid fr d
      = (∑ p in Finset.range st.pc,
           ((grid p (fr + 1)).1 - (grid p fr).1) * st.basis p d,
         ∑ p in Finset.range st.pc,
           ((grid p (fr + 1)).2 - (grid p fr).2) * st.basis p d) := by
  unfold cVec
  rw [foldl_pair_add]
  simp

/-- C7: under strictly positive retained eigenvalues and weighted
orthonormality of the basis columns, posToParams applied to the grid
produced by paramsToPos recovers every entry of the original parameter
vector exactly. -/
theorem posToParams_roundtrip (st : GpMotionFit ℝ) (x x0 : ℕ → ℝ)
    (hfc : 0 < st.fc)
    (hortho : ∀ d < st.dc, ∀ d2 < st.dc,
      ∑ p in Finset.range st.pc, st.basis p d * st.basis p d2
        = if d = d2 then st.eigenVals d else 0)
    (hpos : ∀ d < st.dc, 0 < st.eigenVals d)
    (i : ℕ) (hi : i < paramLength st) :
    posToParams st (paramsToPos st x) x0 i = x i := by
  have hlen : i < 2 * st.pc + 2 * (st.dc * (st.fc - 1)) := by
    unfold paramLength at hi
    have h : 2 * st.dc * (st.fc - 1) = 2 * (st.dc * (st.fc - 1)) := by ring
    omega
  rcases Nat.lt_or_ge i (2 * st.pc) with hlow | hhigh
  · obtain ⟨p, hp, hcase⟩ : ∃ p, p < st.pc ∧ (i = 2 * p ∨ i = 2 * p + 1) :=
      ⟨i / 2, by omega, by omega⟩
    rcases hcase with h | h
    · rw [h, (posToParams_at_pos st (paramsToPos st x) x0 p hp).1]
      show (posAt st x p 0).1 = _
      rw [posAt_zero st x p hfc]
    · rw [h, (posToParams_at_pos st (paramsToPos st x) x0 p hp).2]
      show (posAt st x p 0).2 = _
      rw [posAt_zero st x p hfc]
  · have hdc0 : 0 < st.dc := by
      rcases Nat.eq_zero_or_pos st.dc with h0 | h0
      · exfalso
        rw [h0] at hlen
        omega
      · exact h0
    have hex : ∃ fr d, fr < st.fc - 1 ∧ d < st.dc
        ∧ (i = slot st fr d ∨ i = slot st fr d + 1) := by
      have hdm := Nat.div_add_mod ((i - 2 * st.pc) / 2) st.dc
      have hmod := Nat.mod_lt ((i - 2 * st.pc) / 2) hdc0
      refine ⟨(i - 2 * st.pc) / 2 / st.dc, (i - 2 * st.pc) / 2 % st.dc,
        ?_, hmod, ?_⟩
      · rcases Nat.lt_or_ge ((i - 2 * st.pc) / 2 / st.dc) (st.fc - 1) with h | h
        · exact h
        · exfalso
          have hmul : st.dc * (st.fc - 1)
              ≤ st.dc * ((i - 2 * st.pc) / 2 / st.dc) :=
            Nat.mul_le_mul_left st.dc h
          omega
      · unfold slot
        omega
    obtain ⟨fr, d, hfrlt, hdlt, hcase⟩ := hex
    have hfr1 : fr + 1 < st.fc := by omega
    have hdiff : ∀ p,
        ((paramsToPos st x p (fr + 1)).1 - (paramsToPos st x p fr).1
          = (velocity st x p fr).1)
        ∧ ((paramsToPos st x p (fr + 1)).2 - (paramsToPos st x p fr).2
          = (velocity st x p fr).2) := by
      intro p
      have h := posAt_succ st x p fr hfr1
      constructor
      · show (posAt st x p (fr + 1)).1 - (posAt st x p fr).1 = _
        rw [h]
        ring
      · show (posAt st x p (fr + 1)).2 - (posAt st x p fr).2 = _
        rw [h]
        ring
    have hkey1 : (cVec st (paramsToPos st x) fr d).1
        = x (slot st fr d) * st.eigenVals d := by
      rw [cVec_def]
      show (∑ p in Finset.range st.pc,
          ((paramsToPos st x p (fr + 1)).1 - (paramsToPos st x p fr).1)
            * st.basis p d) = _
      calc (∑ p in Finset.range st.pc,
          ((paramsToPos st x p (fr + 1)).1 - (paramsToPos st x p fr).1)
            * st.basis p d)
          = ∑ p in Finset.range st.pc,
              (∑ d2 in Finset.range st.dc,
                x (slot st fr d2) * st.basis p d2) * st.basis p d := by
            apply Finset.sum_congr rfl
            intro p _
            rw [(hdiff p).1, velocity_def]
        _ = ∑ d2 in Finset.range st.dc, x (slot st fr d2) *
              ∑ p in Finset.range st.pc, st.basis p d2 * st.basis p d := by
            simp only [Finset.sum_mul]
            rw [Finset.sum_comm]
            apply Finset.sum_congr rfl
            intro d2 _
            rw [Finset.mul_sum]
            apply Finset.sum_congr rfl
            intro p _
            ring
        _ = ∑ d2 in Finset.range st.dc, x (slot st fr d2) *
              (if d2 = d then st.eigenVals d2 else 0) := by
            apply Finset.sum_congr rfl
            intro d2 hd2
            rw [hortho d2 (Finset.mem_range.mp hd2) d hdlt]
        _ = x (slot st fr d) * st.eigenVals d := by
            rw [Finset.sum_eq_single d]
            · rw [if_pos rfl]
            · intro d2 _ hne
              rw [if_neg hne, mul_zero]
            · intro habs
              exact absurd (Finset.mem_range.mpr hdlt) habs
    have hkey2 : (cVec st (paramsToPos st x) fr d).2
        = x (slot st fr d + 1) * st.eigenVals d := by
      rw [cVec_def]
      show (∑ p in Finset.range st.pc,
          ((paramsToPos st x p (fr + 1)).2 - (paramsToPos st x p fr).2)
            * st.basis p d) = _
      calc (∑ p in Finset.range st.pc,
          ((paramsToPos st x p (fr + 1)).2 - (paramsToPos st x p fr).2)
            * st.basis p d)
          = ∑ p in Finset.range st.pc,
              (∑ d2 in Finset.range st.dc,
                x (slot st fr d2 + 1) * st.basis p d2) * st.basis p d := by
            apply Finset.sum_congr rfl
            intro p _
            rw [(hdiff p).2, velocity_def]
        _ = ∑ d2 in Finset.range st.dc, x (slot st fr d2 + 1) *
              ∑ p in Finset.range st.pc, st.basis p d2 * st.basis p d := by
            simp only [Finset.sum_mul]
            rw [Finset.sum_comm]
            apply Finset.sum_congr rfl
            intro d2 _
            rw [Finset.mul_sum]
            apply Finset.sum_congr rfl
            intro p _
            ring
        _ = ∑ d2 in Finset.range st.dc, x (slot st fr d2 + 1) *
              (if d2 = d then st.eigenVals d2 else 0) := by
            apply Finset.sum_congr rfl
            intro d2 hd2
            rw [hortho d2 (Finset.mem_range.mp hd2) d hdlt]
        _ = x (slot st fr d + 1) * st.eigenVals d := by
            rw [Finset.sum_eq_single d]
            · rw [if_pos rfl]
            · intro d2 _ hne
              rw [if_neg hne, mul_zero]
            · intro habs
              exact absurd (Finset.mem_range.mpr hdlt) habs
    rcases hcase with h | h
    · rw [h,
        (posToParams_at_slot st (paramsToPos st x) x0 fr d hfrlt hdlt).1,
        hkey1, mul_div_cancel_right₀ _ (ne_of_gt (hpos d hdlt))]
    · rw [h,
        (posToParams_at_slot st (paramsToPos st x) x0 fr d hfrlt hdlt).2,
        hkey2, mul_div_cancel_right₀ _ (ne_of_gt (hpos d hdlt))]

/-- Witness for the round-trip on a concrete 1-particle, 2-frame instance,
at the coefficient slot 2. -/
theorem posToParams_roundtrip_witness :
    0 < stC7w.fc
    ∧ (∀ d < stC7w.dc, ∀ d2 < stC7w.dc,
        ∑ p in Finset.range stC7w.pc, stC7w.basis p d * stC7w.basis p d2
          = if d = d2 then stC7w.eigenVals d else 0)
    ∧ (∀ d < stC7w.dc, 0 < stC7w.eigenVals d)
    ∧ 2 < paramLength stC7w
    ∧ posToParams stC7w (paramsToPos stC7w xC7w) (fun _ => 0) 2 = xC7w 2 := by
  have hortho : ∀ d < stC7w.dc, ∀ d2 < stC7w.dc,
      ∑ p in Finset.range stC7w.pc, stC7w.basis p d * stC7w.basis p d2
        = if d = d2 then stC7w.eigenVals d else 0 := by
    intro d hd d2 hd2
    have hd1 : d < 1 := hd
    have hd21 : d2 < 1 := hd2
    interval_cases d <;> interval_cases d2 <;> simp [stC7w]
  have hpos : ∀ d < stC7w.dc, 0 < stC7w.eigenVals d := by
    intro d _
    norm_num [stC7w]
  exact ⟨by decide, hortho, hpos, by decide,
    posToParams_roundtrip stC7w xC7w (fun _ => 0) (by decide) hortho hpos 2
      (by decide)⟩

end GpMotionFit
